import Mathlib

/-!
Verification of the slicing/geometry engine of the `hfxyHome` image-slicing
utility (source: `services/imageProcessor.ts` and `types.ts`).

The engine is shallowly embedded:

* an HTML canvas becomes a `Canvas`: integer width and height plus a pixel
  map `Nat → Nat → Option Nat`, where `none` is a blank/transparent pixel
  (freshly created canvases are fully transparent);
* the unscaled `drawImage(source, sx, sy, w, h, 0, 0, w, h)` calls used by
  the slicer become `drawImageUnscaled` (reading outside the source bounds
  yields transparency, which on a blank destination agrees with the
  browser's source-rectangle clipping);
* `canvas.toBlob` — the external PNG codec — becomes an arbitrary function
  `enc : Canvas → Option Nat` (`none` models the codec handing `null` to
  the callback; the blob itself is abstracted to a `Nat` token);
* JavaScript numbers reaching the slicer are integers: canvas dimensions
  are `Nat`, coordinates and the caller-supplied `splitY2` are `Int`.

Every definition mirrors the corresponding TypeScript line for line; the
intermediate `let`s of `processSlices` (`topHeight`, `midEnd`, `midHeight`,
`botStart`, `availableHeight`) are named top-level definitions so theorems
can speak about them.
-/

namespace ImageProcessor

/-- A decoded raster surface: `width`/`height` as exposed by the canvas,
and a pixel map where `none` is a transparent pixel. -/
structure Canvas where
  width : Nat
  height : Nat
  pixel : Nat → Nat → Option Nat

/-- Reading a pixel at signed coordinates: outside the canvas bounds the
read yields transparency. -/
def Canvas.atI (c : Canvas) (x y : Int) : Option Nat :=
  if 0 ≤ x ∧ x < (c.width : Int) ∧ 0 ≤ y ∧ y < (c.height : Int) then
    c.pixel x.toNat y.toNat
  else none

/-- `document.createElement('canvas')` with the given dimensions: fully
transparent. -/
def blankCanvas (w h : Nat) : Canvas :=
  ⟨w, h, fun _ _ => none⟩

/-- `ctx.drawImage(src, sx, sy, w, h, 0, 0, w, h)`: copy the `w × h`
rectangle of `src` starting at `(sx, sy)` to the top-left corner of `dst`,
with no scaling (source and destination rectangles have equal size in
every call the slicer makes). -/
def drawImageUnscaled (dst src : Canvas) (sx sy : Int) (w h : Nat) : Canvas :=
  ⟨dst.width, dst.height, fun x y =>
    if x < w ∧ y < h then src.atI (sx + x) (sy + y) else dst.pixel x y⟩

/-- `SliceResult` of `types.ts`, minus the two browser-only fields: the
`blob` bytes are abstracted to a `Nat` token produced by the encoder, and
the object `url` (derived from the blob by `URL.createObjectURL`) is
dropped. -/
structure SliceResult where
  id : String
  name : String
  blob : Nat
  width : Nat
  height : Nat
  x : Int
  y : Int
deriving DecidableEq

/-- Code-unit lexicographic comparison of character lists: the order
`localeCompare` induces on the ASCII slice names `m_1.png` … `m_6.png`. -/
def charListLe : List Char → List Char → Bool
  | [], _ => true
  | _ :: _, [] => false
  | a :: as, b :: bs =>
    if a.toNat < b.toNat then true
    else if b.toNat < a.toNat then false
    else charListLe as bs

/-- Lexicographic comparison of strings by code units. -/
def strLe (a b : String) : Bool := charListLe a.data b.data

/-- The sort key used by `processSlices`: `a.name.localeCompare(b.name)`,
i.e. lexicographic order on the `name` field. -/
def nameLE (a b : SliceResult) : Prop := strLe a.name b.name = true

instance : DecidableRel nameLE := fun a b =>
  instDecidableEqBool (strLe a.name b.name) true

/-- The canvas built inside the `extract` helper: a fresh blank `w × h`
canvas into which the source rectangle at `(x, y)` is drawn. -/
def extractCanvas (src : Canvas) (x y : Int) (w h : Nat) : Canvas :=
  drawImageUnscaled (blankCanvas w h) src x y w h

/-- The `extract` helper of `processSlices`: skip when `h ≤ 0 ∨ w ≤ 0`;
otherwise draw the region into a fresh canvas, encode it, and produce a
`SliceResult` only when the encoder yields a blob (a `null` blob is
silently skipped, exactly as in the `toBlob` callback). -/
def extract (src : Canvas) (enc : Canvas → Option Nat) (x y w h : Int)
    (nm : String) : Option SliceResult :=
  if h ≤ 0 ∨ w ≤ 0 then none
  else
    match enc (extractCanvas src x y w.toNat h.toNat) with
    | some b => some ⟨nm, nm ++ ".png", b, w.toNat, h.toNat, x, y⟩
    | none => none

/-- `topHeight = Math.min(splitY1, totalHeight)` with `splitY1 = 640`. -/
def topHeightOf (src : Canvas) : Int :=
  min 640 (src.height : Int)

/-- `midEnd = Math.min(splitY2, totalHeight)`. -/
def midEndOf (src : Canvas) (splitY2 : Int) : Int :=
  min splitY2 (src.height : Int)

/-- `midHeight = midEnd - midStart` with `midStart = splitY1 = 640`. -/
def midHeightOf (src : Canvas) (splitY2 : Int) : Int :=
  midEndOf src splitY2 - 640

/-- `botStart = midEnd`. -/
def botStartOf (src : Canvas) (splitY2 : Int) : Int :=
  midEndOf src splitY2

/-- `availableHeight = totalHeight - botStart`. -/
def availableHeightOf (src : Canvas) (splitY2 : Int) : Int :=
  (src.height : Int) - botStartOf src splitY2

/-- The fixed 640×480 bottom canvas `c4`: blank by default; when
`availableHeight > 0` the top `min(availableHeight, 480)` rows of source
content starting at `botStart` are drawn in, and the remaining rows stay
transparent. -/
def m4Canvas (src : Canvas) (splitY2 : Int) : Canvas :=
  if 0 < availableHeightOf src splitY2 then
    drawImageUnscaled (blankCanvas 640 480) src 0 (botStartOf src splitY2)
      640 (min (availableHeightOf src splitY2) 480).toNat
  else blankCanvas 640 480

/-- The m_4 push: always attempted at fixed 640×480 with recorded origin
`(0, botStart)`, but pushed only when the encoder yields a blob. -/
def m4Slice (src : Canvas) (enc : Canvas → Option Nat) (splitY2 : Int) :
    Option SliceResult :=
  (enc (m4Canvas src splitY2)).map fun b =>
    ⟨"m_4", "m_4.png", b, 640, 480, 0, botStartOf src splitY2⟩

/-- The `slices` array in push order: m_5, m_6, m_1, m_2 (each guarded by
`extract`), m_3 only when `midHeight > 0`, then m_4. -/
def pushedSlices (src : Canvas) (splitY2 : Int) (enc : Canvas → Option Nat) :
    List SliceResult :=
  [ extract src enc 0 0 80 (topHeightOf src) "m_5",
    extract src enc 560 0 80 (topHeightOf src) "m_6",
    extract src enc 80 0 240 (topHeightOf src) "m_1",
    extract src enc 320 0 240 (topHeightOf src) "m_2",
    if 0 < midHeightOf src splitY2 then
      extract src enc 0 640 640 (midHeightOf src splitY2) "m_3"
    else none,
    m4Slice src enc splitY2 ].filterMap id

/-- `processSlices(sourceCanvas, splitY2)`: push the six candidate regions
and return them sorted by `name` (`slices.sort((a, b) =>
a.name.localeCompare(b.name))`, which on the ASCII names `m_1.png` …
`m_6.png` is lexicographic string order; JavaScript's sort is stable, as
is the insertion sort used here, and the keys are pairwise distinct, so
the sorted list is the same). -/
def processSlices (src : Canvas) (splitY2 : Int) (enc : Canvas → Option Nat) :
    List SliceResult :=
  List.insertionSort nameLE (pushedSlices src splitY2 enc)

/-- A decoded source image as handed to the resizer (an
`HTMLImageElement`): only its integer dimensions matter to the geometry. -/
structure SourceImage where
  width : Nat
  height : Nat

/-!
The resizer computes `img.height * (640 / img.width)` in IEEE-754
binary64 ("double") arithmetic — one rounded division, one rounded
multiplication — and the `canvas.height` setter then converts the double
with Web IDL `unsigned long` semantics (non-finite → 0, otherwise
truncate and reduce modulo 2^32). This is modelled exactly: a
nonnegative finite double is a dyadic pair `(m, t)` of value `m·2^t`
inside `Option`, with `none` for a non-finite value (Infinity/NaN), and
each arithmetic step rounds the exact rational result to 53 significant
bits, nearest-ties-to-even, with the binary64 subnormal cutoff and
overflow threshold. Everything is `Nat`/`Int` arithmetic so that
concrete runs evaluate inside the kernel.
-/

/-- Floor of log₂ on naturals, by explicit fuel (`flog2 n n` is total for
the caller `natLog2`). -/
def flog2 : Nat → Nat → Nat
  | 0, _ => 0
  | fuel + 1, n => if 2 ≤ n then flog2 fuel (n / 2) + 1 else 0

/-- `⌊log₂ n⌋` (0 at 0). -/
def natLog2 (n : Nat) : Nat := flog2 n n

/-- `⌊log₂ (a/b)⌋` for `a, b ≥ 1`: scale `a/b` up by `2^N` with
`N > log₂ b` so the quotient is ≥ 1, take its integer log, shift back. -/
def ratLog2 (a b : Nat) : Int :=
  let N := natLog2 b + 1
  (natLog2 (a * 2 ^ N / b) : Int) - N

/-- Round the nonnegative fraction `num/den` (`den ≥ 1`) to the nearest
integer, ties to even. -/
def rneNat (num den : Nat) : Nat :=
  let q := num / den
  let r := num % den
  if 2 * r < den then q
  else if den < 2 * r then q + 1
  else if q % 2 = 0 then q else q + 1

/-- The fraction `(a/b) / 2^s`, kept in `ℕ × ℕ`. -/
def shiftFrac (a b : Nat) (s : Int) : Nat × Nat :=
  if 0 ≤ s then (a, b * 2 ^ s.toNat) else (a * 2 ^ (-s).toNat, b)

/-- Whether the dyadic value `m·2^t` reaches the binary64 overflow
threshold `2^1024`. -/
def fpOverflow (m : Nat) (t : Int) : Bool :=
  if 0 ≤ t then 2 ^ 1024 ≤ m * 2 ^ t.toNat
  else 2 ^ 1024 * 2 ^ (-t).toNat ≤ m

/-- One IEEE-754 binary64 rounding (to nearest, ties to even) of the
nonnegative rational `a/b`, as a dyadic `(mantissa, exponent)` pair:
the quantum exponent is `max ⌊log₂ (a/b)⌋ (-1022) - 52` (normal numbers
get 53 significant bits, the subnormal range the fixed quantum
`2^(-1074)`), and a rounded value at or above `2^1024` is Infinity
(`none`). -/
def fpRound (a b : Nat) : Option (Nat × Int) :=
  if a = 0 ∨ b = 0 then some (0, 0)
  else
    let t : Int := max (ratLog2 a b) (-1022) - 52
    let p := shiftFrac a b t
    let m := rneNat p.1 p.2
    if fpOverflow m t then none else some (m, t)

/-- A natural number as a JS double (exact below `2^53`). -/
def jsOfNat (n : Nat) : Option (Nat × Int) := fpRound n 1

/-- JS `/` on doubles: division by zero gives Infinity (or NaN for 0/0),
i.e. `none`; otherwise the exact quotient is rounded once. -/
def jsDiv : Option (Nat × Int) → Option (Nat × Int) → Option (Nat × Int)
  | some (mx, tx), some (my, ty) =>
    if my = 0 then none
    else
      let p := shiftFrac mx my (-(tx - ty))
      fpRound p.1 p.2
  | _, _ => none

/-- JS `*` on doubles: the exact product rounded once; anything with a
non-finite operand is non-finite. -/
def jsMul : Option (Nat × Int) → Option (Nat × Int) → Option (Nat × Int)
  | some (mx, tx), some (my, ty) =>
    let p := shiftFrac (mx * my) 1 (-(tx + ty))
    fpRound p.1 p.2
  | _, _ => none

/-- The `canvas.height` setter (Web IDL `unsigned long`): a non-finite
double becomes 0; a finite one is truncated and reduced modulo `2^32`. -/
def jsToUint32 : Option (Nat × Int) → Nat
  | some (m, t) => (if 0 ≤ t then m * 2 ^ t.toNat else m / 2 ^ (-t).toNat) % 2 ^ 32
  | none => 0

/-- `resizeImageTo640(img)`: the output canvas gets `width = 640`
(`canvas.width = targetWidth`) and
`height = img.height * (640 / img.width)` computed in doubles
(`scaleFactor = targetWidth / img.width`,
`targetHeight = img.height * scaleFactor`), converted to an integer by
the `canvas.height` setter (`jsToUint32`: when `img.width = 0` the scale
is Infinity and the setter coerces the non-finite product to 0). The
scaled pixel content is the browser's high-quality blit, an out-of-scope
collaborator, passed in as `scaled`. The only `throw` in the source is
`'Could not get canvas context'` when `getContext` fails, modelled by the
`ctxOk` flag; there is no input validation. -/
def resizeImageTo640 (ctxOk : Bool) (img : SourceImage)
    (scaled : Nat → Nat → Option Nat) : Except String Canvas :=
  if ctxOk then
    .ok ⟨640,
      jsToUint32 (jsMul (jsOfNat img.height)
        (jsDiv (jsOfNat 640) (jsOfNat img.width))), scaled⟩
  else .error "Could not get canvas context"

/-- The externally visible descriptor of a slice: `(id, x, y, width,
height)` — everything but the encoded bytes. -/
def SliceResult.descr (s : SliceResult) : String × Int × Int × Nat × Nat :=
  (s.id, s.x, s.y, s.width, s.height)

/-- Membership in the top band's slice group (m_1, m_2, m_5, m_6). -/
def isTopGroup (s : SliceResult) : Bool :=
  s.id == "m_1" || s.id == "m_2" || s.id == "m_5" || s.id == "m_6"

theorem charListLe_cons {a b : Char} {as bs : List Char} :
    charListLe (a :: as) (b :: bs) = true ↔
      a.toNat < b.toNat ∨ (a.toNat = b.toNat ∧ charListLe as bs = true) := by
  simp only [charListLe]
  split_ifs with h1 h2
  · simp [h1]
  · simp only [Bool.false_eq_true, false_iff]
    rintro (h | ⟨h, _⟩) <;> omega
  · have heq : a.toNat = b.toNat := by omega
    simp [heq]

theorem charListLe_total : ∀ as bs, charListLe as bs = true ∨ charListLe bs as = true := by
  intro as
  induction as with
  | nil => intro bs; left; rfl
  | cons a as ih =>
    intro bs
    cases bs with
    | nil => right; rfl
    | cons b bs =>
      rw [charListLe_cons, charListLe_cons]
      rcases Nat.lt_trichotomy a.toNat b.toNat with h | h | h
      · left; exact Or.inl h
      · rcases ih bs with h3 | h3
        · exact Or.inl (Or.inr ⟨h, h3⟩)
        · exact Or.inr (Or.inr ⟨h.symm, h3⟩)
      · right; exact Or.inl h

theorem charListLe_trans : ∀ as bs cs, charListLe as bs = true →
    charListLe bs cs = true → charListLe as cs = true := by
  intro as
  induction as with
  | nil => intro bs cs _ _; rfl
  | cons a as ih =>
    intro bs cs h1 h2
    cases bs with
    | nil => simp [charListLe] at h1
    | cons b bs =>
      cases cs with
      | nil => simp [charListLe] at h2
      | cons c cs =>
        rw [charListLe_cons] at h1 h2 ⊢
        rcases h1 with h1 | ⟨h1e, h1r⟩
        · rcases h2 with h2 | ⟨h2e, _⟩
          · exact Or.inl (by omega)
          · exact Or.inl (by omega)
        · rcases h2 with h2 | ⟨h2e, h2r⟩
          · exact Or.inl (by omega)
          · exact Or.inr ⟨by omega, ih bs cs h1r h2r⟩

instance : IsTotal SliceResult nameLE :=
  ⟨fun a b => charListLe_total a.name.data b.name.data⟩

instance : IsTrans SliceResult nameLE :=
  ⟨fun _ _ _ h h' => charListLe_trans _ _ _ h h'⟩

/-- The sorted output is a permutation of the pushed slices. -/
theorem processSlices_perm (src : Canvas) (splitY2 : Int)
    (enc : Canvas → Option Nat) :
    (processSlices src splitY2 enc).Perm (pushedSlices src splitY2 enc) :=
  List.perm_insertionSort nameLE _

theorem extract_of_nonpos (src : Canvas) (enc : Canvas → Option Nat)
    (x y w h : Int) (nm : String) (hwh : h ≤ 0 ∨ w ≤ 0) :
    extract src enc x y w h nm = none := by
  unfold extract
  rw [if_pos hwh]

theorem extract_of_pos (src : Canvas) (enc : Canvas → Option Nat)
    (x y w h : Int) (nm : String) (hw : 0 < w) (hh : 0 < h)
    (hs : (enc (extractCanvas src x y w.toNat h.toNat)).isSome = true) :
    extract src enc x y w h nm =
      some ⟨nm, nm ++ ".png",
        (enc (extractCanvas src x y w.toNat h.toNat)).get hs,
        w.toNat, h.toNat, x, y⟩ := by
  unfold extract
  rw [if_neg (by omega)]
  obtain ⟨b, hb⟩ := Option.isSome_iff_exists.mp hs
  simp [hb]

theorem pushedSlices_of_isSome (src : Canvas) (splitY2 : Int)
    (enc : Canvas → Option Nat) (henc : ∀ c, (enc c).isSome = true) :
    pushedSlices src splitY2 enc =
      (if 0 < src.height then
        [⟨"m_5", "m_5.png", (enc (extractCanvas src 0 0 80 (topHeightOf src).toNat)).get (henc _), 80, (topHeightOf src).toNat, 0, 0⟩,
         ⟨"m_6", "m_6.png", (enc (extractCanvas src 560 0 80 (topHeightOf src).toNat)).get (henc _), 80, (topHeightOf src).toNat, 560, 0⟩,
         ⟨"m_1", "m_1.png", (enc (extractCanvas src 80 0 240 (topHeightOf src).toNat)).get (henc _), 240, (topHeightOf src).toNat, 80, 0⟩,
         ⟨"m_2", "m_2.png", (enc (extractCanvas src 320 0 240 (topHeightOf src).toNat)).get (henc _), 240, (topHeightOf src).toNat, 320, 0⟩]
       else [])
      ++ (if 0 < midHeightOf src splitY2 then
          [⟨"m_3", "m_3.png", (enc (extractCanvas src 0 640 640 (midHeightOf src splitY2).toNat)).get (henc _), 640, (midHeightOf src splitY2).toNat, 0, 640⟩]
         else [])
      ++ [⟨"m_4", "m_4.png", (enc (m4Canvas src splitY2)).get (henc _), 640, 480, 0, botStartOf src splitY2⟩] := by
  unfold pushedSlices
  obtain ⟨b4, hb4⟩ := Option.isSome_iff_exists.mp (henc (m4Canvas src splitY2))
  by_cases hh : 0 < src.height
  · have htop : 0 < topHeightOf src := by
      unfold topHeightOf; omega
    rw [extract_of_pos src enc 0 0 80 (topHeightOf src) "m_5" (by norm_num) htop (henc _),
        extract_of_pos src enc 560 0 80 (topHeightOf src) "m_6" (by norm_num) htop (henc _),
        extract_of_pos src enc 80 0 240 (topHeightOf src) "m_1" (by norm_num) htop (henc _),
        extract_of_pos src enc 320 0 240 (topHeightOf src) "m_2" (by norm_num) htop (henc _),
        if_pos hh]
    by_cases hm : 0 < midHeightOf src splitY2
    · rw [if_pos hm, if_pos hm,
          extract_of_pos src enc 0 640 640 (midHeightOf src splitY2) "m_3" (by norm_num) hm (henc _)]
      unfold m4Slice
      simp [hb4, List.filterMap]
    · rw [if_neg hm, if_neg hm]
      unfold m4Slice
      simp [hb4, List.filterMap]
  · have hz : src.height = 0 := by omega
    have htop : topHeightOf src ≤ 0 := by
      unfold topHeightOf; omega
    have hm : ¬ 0 < midHeightOf src splitY2 := by
      unfold midHeightOf midEndOf; omega
    rw [extract_of_nonpos src enc 0 0 80 (topHeightOf src) "m_5" (Or.inl htop),
        extract_of_nonpos src enc 560 0 80 (topHeightOf src) "m_6" (Or.inl htop),
        extract_of_nonpos src enc 80 0 240 (topHeightOf src) "m_1" (Or.inl htop),
        extract_of_nonpos src enc 320 0 240 (topHeightOf src) "m_2" (Or.inl htop),
        if_neg hh, if_neg hm, if_neg hm]
    unfold m4Slice
    simp [hb4, List.filterMap]

theorem extract_inv {src : Canvas} {enc : Canvas → Option Nat} {x y w h : Int}
    {nm : String} {s : SliceResult} (hs : extract src enc x y w h nm = some s) :
    0 < w ∧ 0 < h ∧
      enc (extractCanvas src x y w.toNat h.toNat) = some s.blob ∧
      s.id = nm ∧ s.name = nm ++ ".png" ∧ s.width = w.toNat ∧
      s.height = h.toNat ∧ s.x = x ∧ s.y = y := by
  unfold extract at hs
  by_cases hwh : h ≤ 0 ∨ w ≤ 0
  · rw [if_pos hwh] at hs
    exact absurd hs (by simp)
  · rw [if_neg hwh] at hs
    push_neg at hwh
    rcases he : enc (extractCanvas src x y w.toNat h.toNat) with _ | b <;>
      rw [he] at hs
    · simp at hs
    · rw [Option.some.injEq] at hs
      subst hs
      exact ⟨by omega, by omega, rfl, rfl, rfl, rfl, rfl, rfl, rfl⟩

theorem m4Slice_inv {src : Canvas} {enc : Canvas → Option Nat} {splitY2 : Int}
    {s : SliceResult} (hs : m4Slice src enc splitY2 = some s) :
    enc (m4Canvas src splitY2) = some s.blob ∧ s.id = "m_4" ∧
      s.name = "m_4.png" ∧ s.width = 640 ∧ s.height = 480 ∧ s.x = 0 ∧
      s.y = botStartOf src splitY2 := by
  unfold m4Slice at hs
  rcases he : enc (m4Canvas src splitY2) with _ | b <;> rw [he] at hs
  · simp at hs
  · rw [Option.map_some', Option.some.injEq] at hs
    subst hs
    exact ⟨rfl, rfl, rfl, rfl, rfl, rfl, rfl⟩

theorem mem_processSlices_iff {src : Canvas} {splitY2 : Int}
    {enc : Canvas → Option Nat} {s : SliceResult} :
    s ∈ processSlices src splitY2 enc ↔
      extract src enc 0 0 80 (topHeightOf src) "m_5" = some s ∨
      extract src enc 560 0 80 (topHeightOf src) "m_6" = some s ∨
      extract src enc 80 0 240 (topHeightOf src) "m_1" = some s ∨
      extract src enc 320 0 240 (topHeightOf src) "m_2" = some s ∨
      (0 < midHeightOf src splitY2 ∧
        extract src enc 0 640 640 (midHeightOf src splitY2) "m_3" = some s) ∨
      m4Slice src enc splitY2 = some s := by
  rw [(processSlices_perm src splitY2 enc).mem_iff]
  unfold pushedSlices
  by_cases hm : 0 < midHeightOf src splitY2 <;>
    simp [List.mem_filterMap, hm, eq_comm]

theorem jsMul_none_right (x : Option (Nat × Int)) : jsMul x none = none := by
  rcases x with _ | ⟨m, t⟩ <;> rfl

theorem flog2_spec : ∀ fuel n, 1 ≤ n → n ≤ fuel →
    2 ^ flog2 fuel n ≤ n ∧ n < 2 ^ (flog2 fuel n + 1) := by
  intro fuel
  induction fuel with
  | zero => intro n h1 h2; omega
  | succ fuel ih =>
    intro n h1 h2
    by_cases h2n : 2 ≤ n
    · have hd1 : 1 ≤ n / 2 := by omega
      have hd2 : n / 2 ≤ fuel := by omega
      obtain ⟨ha, hb⟩ := ih (n / 2) hd1 hd2
      simp only [flog2, if_pos h2n]
      have hp : 2 ^ (flog2 fuel (n / 2) + 1) = 2 ^ flog2 fuel (n / 2) * 2 :=
        Nat.pow_succ 2 _
      have hp2 : 2 ^ (flog2 fuel (n / 2) + 1 + 1) =
          2 ^ (flog2 fuel (n / 2) + 1) * 2 := Nat.pow_succ 2 _
      omega
    · have h1' : n = 1 := by omega
      subst h1'
      simp [flog2, h2n]

theorem natLog2_spec {n : Nat} (h1 : 1 ≤ n) :
    2 ^ natLog2 n ≤ n ∧ n < 2 ^ (natLog2 n + 1) :=
  flog2_spec n n h1 le_rfl

theorem natLog2_unique {n i : Nat} (h1 : 2 ^ i ≤ n) (h2 : n < 2 ^ (i + 1)) :
    natLog2 n = i := by
  have hpos : 1 ≤ n := le_trans Nat.one_le_two_pow h1
  obtain ⟨ha, hb⟩ := natLog2_spec hpos
  rcases Nat.lt_trichotomy (natLog2 n) i with hlt | heq | hgt
  · have : 2 ^ (natLog2 n + 1) ≤ 2 ^ i :=
      Nat.pow_le_pow_right (by norm_num) (by omega)
    omega
  · exact heq
  · have : 2 ^ (i + 1) ≤ 2 ^ natLog2 n :=
      Nat.pow_le_pow_right (by norm_num) (by omega)
    omega

theorem natLog2_pow (M : Nat) : natLog2 (2 ^ M) = M :=
  natLog2_unique le_rfl (Nat.pow_lt_pow_right (by norm_num) (by omega))

theorem rneNat_of_dvd {num den : Nat} (hden : 0 < den) (h : den ∣ num) :
    rneNat num den = num / den := by
  have hr : num % den = 0 := Nat.dvd_iff_mod_eq_zero.mp h
  simp [rneNat, hr, hden]

theorem fpRound_int_pow (h M : Nat) (h1 : 1 ≤ h) (h2 : h < 2 ^ 32) :
    fpRound (h * 2 ^ M) (2 ^ M) =
      some (h * 2 ^ (52 - natLog2 h), (natLog2 h : Int) - 52) := by
  obtain ⟨hk1, hk2⟩ := natLog2_spec h1
  set k := natLog2 h with hk
  have hk31 : k ≤ 31 := by
    by_contra hgt
    have : 2 ^ 32 ≤ 2 ^ k := Nat.pow_le_pow_right (by norm_num) (by omega)
    omega
  have hpowM : 0 < (2 : Nat) ^ M := Nat.pow_pos (by norm_num)
  have hnz : ¬ (h * 2 ^ M = 0 ∨ (2 : Nat) ^ M = 0) := by
    push_neg
    constructor <;> positivity
  have hquot : h * 2 ^ M * 2 ^ (M + 1) / 2 ^ M = h * 2 ^ (M + 1) := by
    rw [show h * 2 ^ M * 2 ^ (M + 1) = h * 2 ^ (M + 1) * 2 ^ M by ring]
    exact Nat.mul_div_cancel _ hpowM
  have hlogArg : natLog2 (h * 2 ^ (M + 1)) = k + (M + 1) := by
    apply natLog2_unique
    · calc 2 ^ (k + (M + 1)) = 2 ^ k * 2 ^ (M + 1) := pow_add 2 k (M + 1)
        _ ≤ h * 2 ^ (M + 1) := Nat.mul_le_mul_right _ hk1
    · calc h * 2 ^ (M + 1) < 2 ^ (k + 1) * 2 ^ (M + 1) :=
          (Nat.mul_lt_mul_right
            (show 0 < (2:Nat) ^ (M + 1) by positivity)).mpr hk2
        _ = 2 ^ (k + (M + 1) + 1) := by
            rw [← pow_add]
            congr 1
            omega
  have hrat : ratLog2 (h * 2 ^ M) (2 ^ M) = (k : Int) := by
    unfold ratLog2
    rw [natLog2_pow]
    show (natLog2 (h * 2 ^ M * 2 ^ (M + 1) / 2 ^ M) : Int) -
      ((M + 1 : Nat) : Int) = (k : Int)
    rw [hquot, hlogArg]
    push_cast
    ring
  have hts : ¬ (0 : Int) ≤ (k : Int) - 52 := by omega
  have htoNat : (-((k : Int) - 52)).toNat = 52 - k := by omega
  have hshift : shiftFrac (h * 2 ^ M) (2 ^ M) ((k : Int) - 52) =
      (h * 2 ^ M * 2 ^ (52 - k), 2 ^ M) := by
    unfold shiftFrac
    rw [if_neg hts, htoNat]
  have hdvd : ((2 : Nat) ^ M) ∣ h * 2 ^ M * 2 ^ (52 - k) :=
    ⟨h * 2 ^ (52 - k), by ring⟩
  have hrne : rneNat (h * 2 ^ M * 2 ^ (52 - k)) (2 ^ M) = h * 2 ^ (52 - k) := by
    rw [rneNat_of_dvd hpowM hdvd,
      show h * 2 ^ M * 2 ^ (52 - k) = h * 2 ^ (52 - k) * 2 ^ M by ring]
    exact Nat.mul_div_cancel _ hpowM
  have hov : fpOverflow (h * 2 ^ (52 - k)) ((k : Int) - 52) = false := by
    have hlt : h * 2 ^ (52 - k) < 2 ^ 1024 * 2 ^ (52 - k) := by
      have hh : h < 2 ^ 1024 :=
        lt_of_lt_of_le h2 (Nat.pow_le_pow_right (by norm_num) (by norm_num))
      exact (Nat.mul_lt_mul_right (show 0 < (2:Nat) ^ (52 - k) by positivity)).mpr hh
    unfold fpOverflow
    rw [if_neg hts, htoNat]
    exact decide_eq_false (by omega)
  unfold fpRound
  rw [if_neg hnz, hrat]
  show (if fpOverflow
      (rneNat (shiftFrac (h * 2 ^ M) (2 ^ M) (max (k : Int) (-1022) - 52)).1
        (shiftFrac (h * 2 ^ M) (2 ^ M) (max (k : Int) (-1022) - 52)).2)
      (max (k : Int) (-1022) - 52) then none
    else some
      (rneNat (shiftFrac (h * 2 ^ M) (2 ^ M) (max (k : Int) (-1022) - 52)).1
        (shiftFrac (h * 2 ^ M) (2 ^ M) (max (k : Int) (-1022) - 52)).2,
       max (k : Int) (-1022) - 52)) =
    some (h * 2 ^ (52 - k), (k : Int) - 52)
  rw [show max (k : Int) (-1022) - 52 = (k : Int) - 52 by omega, hshift]
  simp only []
  rw [hrne, hov]
  simp

/-- C7: for every input raster and every `splitY2` (and any encoder
behaviour), the list returned by `processSlices` is sorted
lexicographically by the slice name string `"<name>.png"`. -/
theorem processSlices_sorted_by_name (src : Canvas) (splitY2 : Int)
    (enc : Canvas → Option Nat) :
    (processSlices src splitY2 enc).Sorted nameLE :=
  List.sorted_insertionSort nameLE _

/-- C8: every `SliceResult` returned by `processSlices` has strictly
positive width and height, for every input raster, `splitY2` and
encoder. -/
theorem sliceResult_dims_positive (src : Canvas) (splitY2 : Int)
    (enc : Canvas → Option Nat) (s : SliceResult)
    (hs : s ∈ processSlices src splitY2 enc) :
    0 < s.width ∧ 0 < s.height := by
  rcases mem_processSlices_iff.mp hs with h | h | h | h | ⟨_, h⟩ | h
  pick_goal 6
  · obtain ⟨_, _, _, hw, hh, _, _⟩ := m4Slice_inv h
    rw [hw, hh]
    omega
  all_goals
    obtain ⟨_, _, _, _, _, hw, hh, _, _⟩ := extract_inv h
  all_goals rw [hw, hh]; omega

/-- Witness for C8 at a concrete run. -/
theorem sliceResult_dims_positive_w :
    0 < (⟨"m_4", "m_4.png", 0, 640, 480, 0, 800⟩ : SliceResult).width ∧
    0 < (⟨"m_4", "m_4.png", 0, 640, 480, 0, 800⟩ : SliceResult).height :=
  sliceResult_dims_positive ⟨640, 900, fun _ _ => some 0⟩ 800 (fun _ => some 0)
    ⟨"m_4", "m_4.png", 0, 640, 480, 0, 800⟩ (by decide)

theorem extract_none_of_enc_none (src : Canvas) (x y w h : Int) (nm : String) :
    extract src (fun _ => none) x y w h nm = none := by
  unfold extract
  split_ifs <;> rfl

/-- C2 counterexample: on a 640×900 source with `splitY2 = 800`, an
encoder that fails exactly on the 640×160 middle-band canvas makes
`processSlices` return a result set in which `m_3` has silently
vanished — the run completes normally instead of aborting with an
encoding error. -/
theorem encodingFailure_silently_omitted :
    (processSlices ⟨640, 900, fun _ _ => some 0⟩ 800
        (fun c => if c.height == 160 then none else some 0)).map SliceResult.id =
      ["m_1", "m_2", "m_4", "m_5", "m_6"] := by decide

/-- C2 amended: a region whose encoding yields no bytes is silently
dropped from the result while the run completes normally — with an
always-failing encoder the result is the empty list, and every returned
slice carries bytes the encoder actually produced. -/
theorem encodingFailure_drops_region (src : Canvas) (splitY2 : Int)
    (enc : Canvas → Option Nat) :
    processSlices src splitY2 (fun _ => none) = [] ∧
      (∀ s ∈ processSlices src splitY2 enc, ∃ c : Canvas, enc c = some s.blob) := by
  constructor
  · unfold processSlices pushedSlices
    rw [extract_none_of_enc_none, extract_none_of_enc_none,
        extract_none_of_enc_none, extract_none_of_enc_none]
    have hm3 : (if 0 < midHeightOf src splitY2 then
        extract src (fun _ => none) 0 640 640 (midHeightOf src splitY2) "m_3"
      else none) = none := by
      split_ifs with hm
      · exact extract_none_of_enc_none src 0 640 640 (midHeightOf src splitY2) "m_3"
      · rfl
    rw [hm3]
    rfl
  · intro s hs
    rcases mem_processSlices_iff.mp hs with h | h | h | h | ⟨_, h⟩ | h
    pick_goal 6
    · exact ⟨_, (m4Slice_inv h).1⟩
    all_goals exact ⟨_, (extract_inv h).2.2.1⟩

/-- C10: the `y` recorded in the emitted m_4 `SliceResult` is
`min(splitY2, height)` — the clamped `botStart` — not `splitY2` itself;
and when `0 ≤ splitY2 < 640` with rows below it available, m_4's first
row of content is the very pixel row the m_5 top-band canvas also
contains (content overlapping the already-emitted top group). -/
theorem m4_y_is_clamped_botStart (src : Canvas) (splitY2 : Int)
    (enc : Canvas → Option Nat) (s : SliceResult)
    (hs : s ∈ processSlices src splitY2 enc) (hid : s.id = "m_4") :
    s.y = min splitY2 (src.height : Int) ∧
      (∀ x : Nat, x < 80 → 0 ≤ splitY2 → splitY2 < (src.height : Int) →
        splitY2 < 640 →
        (m4Canvas src splitY2).pixel x 0 =
          (extractCanvas src 0 0 80 (topHeightOf src).toNat).pixel x
            splitY2.toNat) := by
  constructor
  · rcases mem_processSlices_iff.mp hs with h | h | h | h | ⟨_, h⟩ | h
    pick_goal 6
    · rw [(m4Slice_inv h).2.2.2.2.2.2]
      rfl
    all_goals
      rw [(extract_inv h).2.2.2.1] at hid
    all_goals simp at hid
  · intro x hx h0 hlt h640
    have hbot : botStartOf src splitY2 = splitY2 := by
      unfold botStartOf midEndOf
      omega
    have havail : 0 < availableHeightOf src splitY2 := by
      unfold availableHeightOf botStartOf midEndOf
      omega
    have hc1 : x < 640 ∧ (0:Nat) < (min (availableHeightOf src splitY2) 480).toNat := by
      constructor
      · omega
      · omega
    have hc2 : x < 80 ∧ splitY2.toNat < (topHeightOf src).toNat := by
      constructor
      · exact hx
      · unfold topHeightOf
        omega
    simp only [m4Canvas, if_pos havail, drawImageUnscaled, extractCanvas,
      blankCanvas, if_pos hc1, if_pos hc2]
    rw [hbot]
    norm_num [Canvas.atI, Int.toNat_of_nonneg h0]

/-- Witness for C10 at a concrete run: 640×640 source, `splitY2 = 300`. -/
theorem m4_y_is_clamped_botStart_w :
    (⟨"m_4", "m_4.png", 0, 640, 480, 0, 300⟩ : SliceResult).y =
        min 300 ((⟨640, 640, fun _ _ => some 0⟩ : Canvas).height : Int) ∧
      (∀ x : Nat, x < 80 → (0:Int) ≤ 300 →
        (300:Int) < ((⟨640, 640, fun _ _ => some 0⟩ : Canvas).height : Int) →
        (300:Int) < 640 →
        (m4Canvas ⟨640, 640, fun _ _ => some 0⟩ 300).pixel x 0 =
          (extractCanvas ⟨640, 640, fun _ _ => some 0⟩ 0 0 80
              (topHeightOf ⟨640, 640, fun _ _ => some 0⟩).toNat).pixel x
            (300:Int).toNat) :=
  m4_y_is_clamped_botStart ⟨640, 640, fun _ _ => some 0⟩ 300 (fun _ => some 0)
    ⟨"m_4", "m_4.png", 0, 640, 480, 0, 300⟩ (by decide) rfl

/-- C1: for every source raster and every `splitY2`, as long as the
encoder yields bytes, `processSlices` emits exactly one m_4 slice, of
width exactly 640 and height exactly 480; when
`availableHeight = height - min(splitY2, height)` is positive the top
`min(availableHeight, 480)` rows of the m_4 canvas are copied from the
source starting at `botStart` and all remaining pixels stay transparent,
and when `availableHeight ≤ 0` the whole m_4 canvas is blank. -/
theorem m4_always_emitted_640x480 (src : Canvas) (splitY2 : Int)
    (enc : Canvas → Option Nat) (henc : ∀ c, (enc c).isSome = true) :
    ((processSlices src splitY2 enc).countP (fun s => s.id == "m_4")) = 1 ∧
    (∀ s ∈ processSlices src splitY2 enc, s.id = "m_4" →
        s.width = 640 ∧ s.height = 480) ∧
    (0 < availableHeightOf src splitY2 →
      ∀ x y : Nat, (m4Canvas src splitY2).pixel x y =
        if x < 640 ∧ (y : Int) < min (availableHeightOf src splitY2) 480 then
          src.atI x (botStartOf src splitY2 + y)
        else none) ∧
    (availableHeightOf src splitY2 ≤ 0 →
      ∀ x y : Nat, (m4Canvas src splitY2).pixel x y = none) := by
  refine ⟨?_, ?_, ?_, ?_⟩
  · rw [(processSlices_perm src splitY2 enc).countP_eq,
        pushedSlices_of_isSome src splitY2 enc henc]
    by_cases hh : 0 < src.height <;> by_cases hm : 0 < midHeightOf src splitY2 <;>
      simp [hh, hm, List.countP_append, List.countP_cons]
  · intro s hs hid
    rcases mem_processSlices_iff.mp hs with h | h | h | h | ⟨_, h⟩ | h
    pick_goal 6
    · obtain ⟨_, _, _, hw, hh, _, _⟩ := m4Slice_inv h
      exact ⟨hw, hh⟩
    all_goals rw [(extract_inv h).2.2.2.1] at hid
    all_goals simp at hid
  · intro hav x y
    simp only [m4Canvas, if_pos hav, drawImageUnscaled, blankCanvas]
    split_ifs with h1 h2 h2
    · rw [zero_add]
    · omega
    · omega
    · rfl
  · intro hav x y
    have hneg : ¬ 0 < availableHeightOf src splitY2 := by omega
    simp only [m4Canvas, if_neg hneg, blankCanvas]

/-- Witness for C1 at a concrete run: 640×640 source, `splitY2 = 800`
(`availableHeight = 0`, so the blank branch is the live one). -/
theorem m4_always_emitted_640x480_w :
    ((processSlices ⟨640, 640, fun _ _ => some 0⟩ 800
        (fun _ => some 0)).countP (fun s => s.id == "m_4")) = 1 ∧
    (∀ s ∈ processSlices ⟨640, 640, fun _ _ => some 0⟩ 800 (fun _ => some 0),
        s.id = "m_4" → s.width = 640 ∧ s.height = 480) ∧
    (0 < availableHeightOf ⟨640, 640, fun _ _ => some 0⟩ 800 →
      ∀ x y : Nat, (m4Canvas ⟨640, 640, fun _ _ => some 0⟩ 800).pixel x y =
        if x < 640 ∧ (y : Int) <
            min (availableHeightOf ⟨640, 640, fun _ _ => some 0⟩ 800) 480 then
          Canvas.atI ⟨640, 640, fun _ _ => some 0⟩ x
            (botStartOf ⟨640, 640, fun _ _ => some 0⟩ 800 + y)
        else none) ∧
    (availableHeightOf ⟨640, 640, fun _ _ => some 0⟩ 800 ≤ 0 →
      ∀ x y : Nat, (m4Canvas ⟨640, 640, fun _ _ => some 0⟩ 800).pixel x y = none) :=
  m4_always_emitted_640x480 ⟨640, 640, fun _ _ => some 0⟩ 800 (fun _ => some 0)
    (fun _ => rfl)


/-- C3: with a working encoder, exactly the four top-group slices (m_5,
m_6, m_1, m_2 at their fixed x-offsets and widths, all at y = 0) are
emitted: each of height 640 when `height ≥ 640`, each of height `height`
when `0 < height < 640`, and none at all when `height = 0`. -/
theorem top_group_emission (src : Canvas) (splitY2 : Int)
    (enc : Canvas → Option Nat) (henc : ∀ c, (enc c).isSome = true) :
    (640 ≤ src.height →
      (((processSlices src splitY2 enc).filter isTopGroup).map
          SliceResult.descr).Perm
        [("m_5", 0, 0, 80, 640), ("m_6", 560, 0, 80, 640),
         ("m_1", 80, 0, 240, 640), ("m_2", 320, 0, 240, 640)]) ∧
    (0 < src.height → src.height < 640 →
      (((processSlices src splitY2 enc).filter isTopGroup).map
          SliceResult.descr).Perm
        [("m_5", 0, 0, 80, src.height), ("m_6", 560, 0, 80, src.height),
         ("m_1", 80, 0, 240, src.height), ("m_2", 320, 0, 240, src.height)]) ∧
    (src.height = 0 → (processSlices src splitY2 enc).filter isTopGroup = []) := by
  have hperm := (processSlices_perm src splitY2 enc).filter isTopGroup
  rw [pushedSlices_of_isSome src splitY2 enc henc] at hperm
  refine ⟨?_, ?_, ?_⟩
  · intro hge
    have hh : 0 < src.height := by omega
    have htop : (topHeightOf src).toNat = 640 := by
      unfold topHeightOf
      omega
    rw [if_pos hh] at hperm
    have h2 := hperm.map SliceResult.descr
    by_cases hm : 0 < midHeightOf src splitY2 <;>
      simp only [if_pos, if_neg, hm, if_true, if_false, ite_true, ite_false] at h2 <;>
      · simp only [List.filter_append, List.filter_cons, List.filter_nil,
          isTopGroup, SliceResult.descr, htop] at h2
        simpa using h2
  · intro hh hlt
    have htop : (topHeightOf src).toNat = src.height := by
      unfold topHeightOf
      omega
    rw [if_pos hh] at hperm
    have h2 := hperm.map SliceResult.descr
    by_cases hm : 0 < midHeightOf src splitY2 <;>
      simp only [if_pos, if_neg, hm, if_true, if_false, ite_true, ite_false] at h2 <;>
      · simp only [List.filter_append, List.filter_cons, List.filter_nil,
          isTopGroup, SliceResult.descr, htop] at h2
        simpa using h2
  · intro hz
    have hh : ¬ 0 < src.height := by omega
    rw [if_neg hh] at hperm
    by_cases hm : 0 < midHeightOf src splitY2 <;>
      simp only [if_pos, if_neg, hm, if_true, if_false, ite_true, ite_false] at hperm <;>
      · refine List.Perm.eq_nil ?_
        refine hperm.trans (List.Perm.of_eq ?_)
        simp [isTopGroup]

/-- Witness for C3 at a concrete run: 640×900 source, `splitY2 = 800`. -/
theorem top_group_emission_w :
    (640 ≤ (⟨640, 900, fun _ _ => some 0⟩ : Canvas).height →
      (((processSlices ⟨640, 900, fun _ _ => some 0⟩ 800
            (fun _ => some 0)).filter isTopGroup).map SliceResult.descr).Perm
        [("m_5", 0, 0, 80, 640), ("m_6", 560, 0, 80, 640),
         ("m_1", 80, 0, 240, 640), ("m_2", 320, 0, 240, 640)]) ∧
    (0 < (⟨640, 900, fun _ _ => some 0⟩ : Canvas).height →
      (⟨640, 900, fun _ _ => some 0⟩ : Canvas).height < 640 →
      (((processSlices ⟨640, 900, fun _ _ => some 0⟩ 800
            (fun _ => some 0)).filter isTopGroup).map SliceResult.descr).Perm
        [("m_5", 0, 0, 80, (⟨640, 900, fun _ _ => some 0⟩ : Canvas).height),
         ("m_6", 560, 0, 80, (⟨640, 900, fun _ _ => some 0⟩ : Canvas).height),
         ("m_1", 80, 0, 240, (⟨640, 900, fun _ _ => some 0⟩ : Canvas).height),
         ("m_2", 320, 0, 240, (⟨640, 900, fun _ _ => some 0⟩ : Canvas).height)]) ∧
    ((⟨640, 900, fun _ _ => some 0⟩ : Canvas).height = 0 →
      (processSlices ⟨640, 900, fun _ _ => some 0⟩ 800
          (fun _ => some 0)).filter isTopGroup = []) :=
  top_group_emission ⟨640, 900, fun _ _ => some 0⟩ 800 (fun _ => some 0)
    (fun _ => rfl)

/-- C4: with a working encoder, m_3 is emitted iff
`midHeight = min(splitY2, height) - 640` is strictly positive; when
emitted it sits at `(0, 640)` with width 640 and height `midHeight`, its
bytes are the encoding of the extraction canvas, and that canvas is a
direct pixel copy of the source rectangle `[0, 640, 640, midHeight]`
(no negative-size extraction ever happens: a non-positive `midHeight`
just omits the slice). -/
theorem m3_iff_pos_midHeight (src : Canvas) (splitY2 : Int)
    (enc : Canvas → Option Nat) (henc : ∀ c, (enc c).isSome = true) :
    ((processSlices src splitY2 enc).countP (fun s => s.id == "m_3") =
        if 0 < midHeightOf src splitY2 then 1 else 0) ∧
    (∀ s ∈ processSlices src splitY2 enc, s.id = "m_3" →
        s.x = 0 ∧ s.y = 640 ∧ s.width = 640 ∧
        (s.height : Int) = midHeightOf src splitY2 ∧
        enc (extractCanvas src 0 640 640 (midHeightOf src splitY2).toNat) =
          some s.blob) ∧
    (∀ x y : Nat,
        (extractCanvas src 0 640 640 (midHeightOf src splitY2).toNat).pixel x y =
          if x < 640 ∧ (y : Int) < midHeightOf src splitY2 then
            src.atI x (640 + y)
          else none) := by
  refine ⟨?_, ?_, ?_⟩
  · rw [(processSlices_perm src splitY2 enc).countP_eq,
        pushedSlices_of_isSome src splitY2 enc henc]
    by_cases hh : 0 < src.height <;> by_cases hm : 0 < midHeightOf src splitY2 <;>
      simp [hh, hm, List.countP_append, List.countP_cons]
  · intro s hs hid
    rcases mem_processSlices_iff.mp hs with h | h | h | h | ⟨hm, h⟩ | h
    pick_goal 5
    · obtain ⟨_, _, hblob, _, _, hw, hh, hx, hy⟩ := extract_inv h
      refine ⟨hx, hy, by rw [hw]; rfl, ?_, by simpa using hblob⟩
      rw [hh]
      omega
    pick_goal 5
    · rw [(m4Slice_inv h).2.1] at hid
      simp at hid
    all_goals rw [(extract_inv h).2.2.2.1] at hid
    all_goals simp at hid
  · intro x y
    simp only [extractCanvas, drawImageUnscaled, blankCanvas]
    split_ifs with h1 h2 h2
    · rw [zero_add]
    · omega
    · omega
    · rfl

/-- Witness for C4 at a concrete run: 640×900 source, `splitY2 = 800`
(`midHeight = 160 > 0`, so m_3 is present). -/
theorem m3_iff_pos_midHeight_w :
    ((processSlices ⟨640, 900, fun _ _ => some 5⟩ 800
        (fun _ => some 5)).countP (fun s => s.id == "m_3") =
        if 0 < midHeightOf ⟨640, 900, fun _ _ => some 5⟩ 800 then 1 else 0) ∧
    (∀ s ∈ processSlices ⟨640, 900, fun _ _ => some 5⟩ 800 (fun _ => some 5),
        s.id = "m_3" →
        s.x = 0 ∧ s.y = 640 ∧ s.width = 640 ∧
        (s.height : Int) = midHeightOf ⟨640, 900, fun _ _ => some 5⟩ 800 ∧
        (fun _ => some 5 : Canvas → Option Nat)
            (extractCanvas ⟨640, 900, fun _ _ => some 5⟩ 0 640 640
              (midHeightOf ⟨640, 900, fun _ _ => some 5⟩ 800).toNat) =
          some s.blob) ∧
    (∀ x y : Nat,
        (extractCanvas ⟨640, 900, fun _ _ => some 5⟩ 0 640 640
            (midHeightOf ⟨640, 900, fun _ _ => some 5⟩ 800).toNat).pixel x y =
          if x < 640 ∧ (y : Int) < midHeightOf ⟨640, 900, fun _ _ => some 5⟩ 800 then
            Canvas.atI ⟨640, 900, fun _ _ => some 5⟩ x (640 + y)
          else none) :=
  m3_iff_pos_midHeight ⟨640, 900, fun _ _ => some 5⟩ 800 (fun _ => some 5)
    (fun _ => rfl)

/-- C9 counterexample: in scenario A (640×640 normalized raster,
`splitY2 = 800`) the middle-band height the code computes is
`min(800, 640) - 640 = 0`, not `-160` as the claim states. -/
theorem scenarioA_midHeight_is_zero_not_neg160 :
    midHeightOf ⟨640, 640, fun _ _ => some 0⟩ 800 = 0 ∧
      midHeightOf ⟨640, 640, fun _ _ => some 0⟩ 800 ≠ -160 := by
  constructor
  · rfl
  · decide

/-- C9 amended: scenario A in full — 640×640 source with `splitY2 = 800`
yields exactly the four top-group slices of height 640 plus m_4;
`midHeight = min(800, 640) - 640 = 0` (not strictly positive), so m_3 is
omitted; `botStart = 640`, `availableHeight = 0`, and the m_4 canvas is
a fully blank 640×480 raster. -/
theorem scenarioA_result :
    (processSlices ⟨640, 640, fun _ _ => some 0⟩ 800
        (fun _ => some 0)).map SliceResult.descr =
      [("m_1", 80, 0, 240, 640), ("m_2", 320, 0, 240, 640),
       ("m_4", 0, 640, 640, 480), ("m_5", 0, 0, 80, 640),
       ("m_6", 560, 0, 80, 640)] ∧
    midHeightOf ⟨640, 640, fun _ _ => some 0⟩ 800 = 0 ∧
    botStartOf ⟨640, 640, fun _ _ => some 0⟩ 800 = 640 ∧
    availableHeightOf ⟨640, 640, fun _ _ => some 0⟩ 800 = 0 ∧
    (∀ x y : Nat, (m4Canvas ⟨640, 640, fun _ _ => some 0⟩ 800).pixel x y = none) := by
  refine ⟨by decide, rfl, rfl, rfl, ?_⟩
  intro x y
  have hneg : ¬ 0 < availableHeightOf ⟨640, 640, fun _ _ => some 0⟩ 800 := by decide
  simp only [m4Canvas, if_neg hneg, blankCanvas]

set_option maxRecDepth 20000 in
/-- C6 counterexample: a source of width 0 (with a drawing context
available) does not make `resizeImageTo640` fail — it succeeds and
returns a 640×0 canvas, so no `InvalidInput` error is ever raised for
non-positive dimensions. -/
theorem resize_accepts_zero_width :
    resizeImageTo640 true ⟨0, 100⟩ (fun _ _ => none) =
      .ok ⟨640, 0, fun _ _ => none⟩ := by
  have h : jsToUint32 (jsMul (jsOfNat 100)
      (jsDiv (jsOfNat 640) (jsOfNat 0))) = 0 := by decide
  unfold resizeImageTo640
  rw [if_pos rfl, h]

set_option maxRecDepth 20000 in
/-- C6 amended: `resizeImageTo640` performs no input validation at all:
whenever a drawing context is available it succeeds on every source —
zero-dimension ones included — producing a 640-wide canvas (of height 0
when the width is 0), and its only possible error is the canvas-context
failure `'Could not get canvas context'`; no `InvalidInput` error
exists. -/
theorem resize_error_surface (ctxOk : Bool) (img : SourceImage)
    (scaled : Nat → Nat → Option Nat) :
    (∀ e, resizeImageTo640 ctxOk img scaled = .error e →
        e = "Could not get canvas context") ∧
    (ctxOk = true → ∃ c : Canvas, resizeImageTo640 ctxOk img scaled = .ok c ∧
        c.width = 640 ∧ (img.width = 0 → c.height = 0)) := by
  unfold resizeImageTo640
  by_cases hc : ctxOk = true
  · rw [if_pos hc]
    refine ⟨fun e he => absurd he (by simp), fun _ => ⟨_, rfl, rfl, fun hw0 => ?_⟩⟩
    show jsToUint32 (jsMul (jsOfNat img.height)
      (jsDiv (jsOfNat 640) (jsOfNat img.width))) = 0
    rw [hw0, show jsDiv (jsOfNat 640) (jsOfNat 0) = none from by decide,
      jsMul_none_right]
    rfl
  · rw [if_neg hc]
    refine ⟨fun e he => ?_, fun h => absurd h hc⟩
    rw [Except.error.injEq] at he
    exact he.symm

set_option maxRecDepth 40000 in
/-- C5 counterexample: a 39×117 source resizes to height 1919 — the
double-precision product `117 ⊗ (640 ⊘ 39)` is just below 1920 and the
`canvas.height` setter truncates it — while the exact ratio
`117·640/39` is the integer 1920 (`117·640 = 1920·39`), so floor,
ceiling and round-to-nearest of the exact ratio all give 1920: no
exact-arithmetic rounding policy matches the code. -/
theorem resize_39x117_yields_1919 :
    resizeImageTo640 true ⟨39, 117⟩ (fun _ _ => none) =
      .ok ⟨640, 1919, fun _ _ => none⟩ ∧ 117 * 640 = 1920 * 39 := by
  constructor
  · have hv : jsToUint32 (jsMul (jsOfNat 117)
        (jsDiv (jsOfNat 640) (jsOfNat 39))) = 1919 := by decide
    unfold resizeImageTo640
    rw [if_pos rfl, hv]
  · norm_num

set_option maxRecDepth 40000 in
/-- C5 amended: whenever `resizeImageTo640` succeeds (it performs no
input validation), the output width is exactly 640 and the output height is
the `canvas.height` truncation of the double-precision product
`height ⊗ (640 ⊘ width)` — one consistently applied computation, but not
an exact-arithmetic rounding of `height·640/width`; in the clean case
`width = 640` it is exact: the height equals the source height. -/
theorem resize_height_is_double_rounding (ctxOk : Bool) (img : SourceImage)
    (scaled : Nat → Nat → Option Nat) (c : Canvas)
    (hok : resizeImageTo640 ctxOk img scaled = .ok c) :
    c.width = 640 ∧
      c.height = jsToUint32 (jsMul (jsOfNat img.height)
        (jsDiv (jsOfNat 640) (jsOfNat img.width))) ∧
      (img.width = 640 → img.height < 2 ^ 32 → c.height = img.height) := by
  unfold resizeImageTo640 at hok
  by_cases hc : ctxOk = true
  · rw [if_pos hc, Except.ok.injEq] at hok
    subst hok
    refine ⟨rfl, rfl, fun hw640 hlt => ?_⟩
    show jsToUint32 (jsMul (jsOfNat img.height)
      (jsDiv (jsOfNat 640) (jsOfNat img.width))) = img.height
    rw [hw640]
    rw [show jsDiv (jsOfNat 640) (jsOfNat 640) = some (2 ^ 52, -52) from by decide]
    by_cases hh0 : img.height = 0
    · rw [hh0]
      decide
    · have h1 : 1 ≤ img.height := by omega
      obtain ⟨hk1, -⟩ := natLog2_spec h1
      set k := natLog2 img.height with hk
      have hk31 : k ≤ 31 := by
        by_contra hgt
        have : 2 ^ 32 ≤ 2 ^ k := Nat.pow_le_pow_right (by norm_num) (by omega)
        omega
      have hofn : jsOfNat img.height =
          some (img.height * 2 ^ (52 - k), (k : Int) - 52) := by
        have h0 := fpRound_int_pow img.height 0 h1 hlt
        rw [pow_zero, mul_one, ← hk] at h0
        exact h0
      rw [hofn]
      have hsf : shiftFrac (img.height * 2 ^ (52 - k) * 2 ^ 52) 1
          (-(((k : Int) - 52) + -52)) =
          (img.height * 2 ^ (104 - k), 2 ^ (104 - k)) := by
        unfold shiftFrac
        rw [if_pos (by omega)]
        rw [show (-(((k : Int) - 52) + -52)).toNat = 104 - k by omega,
          mul_assoc, ← pow_add, show 52 - k + 52 = 104 - k by omega, one_mul]
      have hmul : jsMul (some (img.height * 2 ^ (52 - k), (k : Int) - 52))
          (some (2 ^ 52, -52)) =
          some (img.height * 2 ^ (52 - k), (k : Int) - 52) := by
        have h2 := fpRound_int_pow img.height (104 - k) h1 hlt
        rw [← hk] at h2
        simp only [jsMul]
        rw [hsf]
        exact h2
      rw [hmul]
      simp only [jsToUint32]
      rw [if_neg (by omega), show (-((k : Int) - 52)).toNat = 52 - k by omega,
        Nat.mul_div_cancel _ (show 0 < (2:Nat) ^ (52 - k) by positivity)]
      exact Nat.mod_eq_of_lt hlt
  · rw [if_neg hc] at hok
    exact absurd hok (by simp)

set_option maxRecDepth 40000 in
/-- Witness for C5 (amended) at a concrete run: a 640×480 source resizes
to exactly 640×480. -/
theorem resize_height_is_double_rounding_w :
    (⟨640, 480, fun _ _ => none⟩ : Canvas).width = 640 ∧
      (⟨640, 480, fun _ _ => none⟩ : Canvas).height =
        jsToUint32 (jsMul (jsOfNat (⟨640, 480⟩ : SourceImage).height)
          (jsDiv (jsOfNat 640) (jsOfNat (⟨640, 480⟩ : SourceImage).width))) ∧
      ((⟨640, 480⟩ : SourceImage).width = 640 →
        (⟨640, 480⟩ : SourceImage).height < 2 ^ 32 →
        (⟨640, 480, fun _ _ => none⟩ : Canvas).height =
          (⟨640, 480⟩ : SourceImage).height) :=
  resize_height_is_double_rounding true ⟨640, 480⟩ (fun _ _ => none)
    ⟨640, 480, fun _ _ => none⟩
    (by
      have hv : jsToUint32 (jsMul (jsOfNat 480)
          (jsDiv (jsOfNat 640) (jsOfNat 640))) = 480 := by decide
      unfold resizeImageTo640
      rw [if_pos rfl, hv])

end ImageProcessor
